import Mathlib

/-!
Shallow embedding of the ClickUp → Google Sheets sync scripts
(`scripts/sync_clickup_pageurl_to_gsheet.js`, team-scoped, and its
list-scoped near-duplicate).  The pure reconciliation logic is translated
directly; the I/O boundaries are modelled as explicit data: the spreadsheet
tab becomes a `Store` (header row plus data rows), the paginated task
endpoint becomes a page function `Nat → List Task`.
-/

namespace ClickupSync

/-- Value of a ClickUp custom field, by the shapes the script discriminates:
`null`/`undefined`; a string; a number; an object, carrying `some s` in
`url` (resp. `value`) exactly when that property exists and is a string,
and `serialized` as the result of `JSON.stringify` (`none` when
serialization throws, e.g. on circular structures); or any other primitive
(boolean, symbol, ...), which falls through to the script's final
`return ""`. -/
inductive FieldValue where
  | nullv : FieldValue
  | str (s : String) : FieldValue
  | num (n : Int) : FieldValue
  | obj (url : Option String) (value : Option String) (serialized : Option String) : FieldValue
  | otherPrim : FieldValue
deriving DecidableEq, Repr

/-- One entry of `task.custom_fields`; `name` is `none` when the property
is absent (the script reads it as `String(f?.name || "")`). -/
structure CustomField where
  name : Option String := none
  value : FieldValue := .nullv
deriving DecidableEq, Repr

/-- One entry of `task.assignees`.  The script picks
`a.username || a.email || a.id` (empty strings are falsy in JS, and a
missing final value renders as `""` under `Array.prototype.join`). -/
structure Assignee where
  username : Option String := none
  email : Option String := none
  id : Option String := none
deriving DecidableEq, Repr

/-- A raw ClickUp task as the script reads it.  Optional fields model
absent JS properties; `archived` models the `task?.archived === true`
test; the date fields are epoch milliseconds. -/
structure Task where
  id : Option String := none
  name : Option String := none
  status : Option String := none
  archived : Bool := false
  assignees : Option (List Assignee) := none
  custom_fields : Option (List CustomField) := none
  date_closed : Option Nat := none
  date_done : Option Nat := none
  url : Option String := none
deriving DecidableEq, Repr

/-- The normalized record produced by `normalize`: seven string fields,
one per sheet column. -/
structure Record where
  task_id : String := ""
  task_name : String := ""
  status : String := ""
  assignees : String := ""
  page_url : String := ""
  date_closed : String := ""
  url : String := ""
deriving DecidableEq, Repr

/-- The spreadsheet tab: row 1 (`header`) and the data rows from row 2
onward (`rows`), each a list of cell strings.  Sheet row number `n`
addresses `rows[n-2]`. -/
structure Store where
  header : List String := []
  rows : List (List String) := []
deriving DecidableEq, Repr

/-- One scheduled in-place overwrite: the 1-based sheet row number of the
range `A{row}:G{row}` and the seven cell values written there. -/
structure Update where
  row : Nat
  values : List String
deriving DecidableEq, Repr

/-! ### String primitives

`String.prototype.toLowerCase` and `String.prototype.trim` are embedded
at the character-list level (the ASCII letter range and the whitespace
characters the script's data can contain), keeping every definition
kernel-computable. -/

/-- Lower-case one character (ASCII `A`–`Z`). -/
def lowerChar (c : Char) : Char :=
  if 65 ≤ c.toNat && c.toNat ≤ 90 then Char.ofNat (c.toNat + 32) else c

/-- Embedding of `toLowerCase()`. -/
def jsToLower (s : String) : String :=
  String.mk (s.data.map lowerChar)

/-- Whitespace test for `trim()`. -/
def isWsChar (c : Char) : Bool :=
  c == ' ' || c == '\t' || c == '\n' || c == '\r'

/-- Drop leading and trailing whitespace of a character list. -/
def trimChars (l : List Char) : List Char :=
  ((l.dropWhile isWsChar).reverse.dropWhile isWsChar).reverse

/-- Embedding of `trim()`. -/
def jsTrim (s : String) : String :=
  String.mk (trimChars s.data)

/-! ### Task Classifier (`isDone`) -/

/-- The closed set of terminal status labels in `isDone`. -/
def DONE_LABELS : List String :=
  ["complete", "completed", "done", "published", "finalized", "closed"]

/-- Translation of `isDone(task)`: lower-case `task?.status?.status || ""` (no trimming
in the source) and test membership in the terminal list, or
`task?.archived === true`. -/
def isDone (t : Task) : Bool :=
  let s := jsToLower (t.status.getD "")
  DONE_LABELS.contains s || t.archived

/-! ### Field Extractor (`getCustomFieldValue`) -/

/-- The name comparison in the `fields.find` callback:
`String(f?.name || "").trim().toLowerCase() === fieldName.trim().toLowerCase()`. -/
def fieldNameMatches (fieldName : String) (f : CustomField) : Bool :=
  jsToLower (jsTrim (f.name.getD "")) == jsToLower (jsTrim fieldName)

/-- The value-coercion chain applied to `match.value`:
null → `""`; string → itself; number → `String(v)`; object → `v.url` if a
string, else `v.value` if a string, else `JSON.stringify(v)` (or `""` when
it throws); any other shape → `""`. -/
def coerceValue : FieldValue → String
  | .nullv => ""
  | .str s => s
  | .num n => toString n
  | .obj url value serialized =>
    match url with
    | some u => u
    | none =>
      match value with
      | some s => s
      | none => serialized.getD ""
  | .otherPrim => ""

/-- Translation of `getCustomFieldValue(task, fieldName)`: first matching field of
`task.custom_fields` (or `[]` when absent / not an array), then the
coercion chain; `""` when there is no match. -/
def getCustomFieldValue (t : Task) (fieldName : String) : String :=
  let fields := t.custom_fields.getD []
  match fields.find? (fieldNameMatches fieldName) with
  | none => ""
  | some f => coerceValue f.value

/-! ### Task Source Paginator

The remote endpoint is modelled as a page function `src : Nat → List Task`
(the tasks returned for a 0-indexed page).  `fetchAllTasksFromTeam` in the
team-scoped script is a bare `while (true)` loop with no page cap, so its
embedding carries explicit fuel: `none` means the loop has not terminated
within `fuel` iterations.  The list-scoped `fetchAllTasksFromList` breaks
when `page > 200` after the increment, so it terminates on every source;
it is embedded as a total function that also counts the requests issued. -/

/-- Loop body of `fetchAllTasksFromTeam` with explicit fuel: fetch the
page, accumulate, stop on an empty page, otherwise continue with
`page + 1`.  There is no page cap in this variant of the source. -/
def fetchTeamFuel (src : Nat → List Task) : Nat → Nat → List Task → Option (List Task)
  | 0, _, _ => none
  | fuel + 1, page, acc =>
    let tasks := src page
    let acc2 := acc ++ tasks
    if tasks.isEmpty then some acc2
    else fetchTeamFuel src fuel (page + 1) acc2

/-- Translation of `fetchAllTasksFromTeam(teamId)`, run for at most `fuel` loop
iterations starting from page 0. -/
def fetchAllTasksFromTeam (src : Nat → List Task) (fuel : Nat) : Option (List Task) :=
  fetchTeamFuel src fuel 0 []

/-- Loop body of `fetchAllTasksFromList`: fetch the page, accumulate,
break on an empty page; otherwise `page += 1` and break when
`page > 200` (the safety cap); `reqs` counts requests issued. -/
def fetchListGo (src : Nat → List Task) (page : Nat) (acc : List Task) (reqs : Nat) :
    List Task × Nat :=
  let tasks := src page
  let acc2 := acc ++ tasks
  let reqs2 := reqs + 1
  if tasks.isEmpty then (acc2, reqs2)
  else if page + 1 > 200 then (acc2, reqs2)
  else fetchListGo src (page + 1) acc2 reqs2
termination_by 201 - page
decreasing_by
  simp_wf
  omega

/-- Translation of `fetchAllTasksFromList(listId)`: the collected tasks together with the
number of page requests issued. -/
def fetchAllTasksFromList (src : Nat → List Task) : List Task × Nat :=
  fetchListGo src 0 [] 0

/-! ### Record Normalizer (`toIso`, `normalize`) -/

/-- Two-digit zero padding, as in `Date.prototype.toISOString`. -/
def pad2 (n : Nat) : String :=
  if n < 10 then "0" ++ toString n else toString n

/-- Three-digit zero padding for the milliseconds part. -/
def pad3 (n : Nat) : String :=
  if n < 10 then "00" ++ toString n
  else if n < 100 then "0" ++ toString n
  else toString n

/-- Four-digit zero padding for the year. -/
def pad4 (n : Nat) : String :=
  if n < 10 then "000" ++ toString n
  else if n < 100 then "00" ++ toString n
  else if n < 1000 then "0" ++ toString n
  else toString n

/-- Embedding of `new Date(ms).toISOString()` for a non-negative epoch-millisecond
timestamp: proleptic-Gregorian UTC civil date via the standard
days-to-civil computation, rendered as `YYYY-MM-DDTHH:MM:SS.mmmZ`. -/
def isoOfMs (ms : Nat) : String :=
  let msPart := ms % 1000
  let totalSec := ms / 1000
  let secOfDay := totalSec % 86400
  let days := totalSec / 86400
  let hh := secOfDay / 3600
  let mi := (secOfDay % 3600) / 60
  let ss := secOfDay % 60
  let z := days + 719468
  let era := z / 146097
  let doe := z % 146097
  let yoe := (doe - doe / 1460 + doe / 36524 - doe / 146096) / 365
  let y0 := yoe + era * 400
  let doy := doe - (365 * yoe + yoe / 4 - yoe / 100)
  let mp := (5 * doy + 2) / 153
  let d := doy - (153 * mp + 2) / 5 + 1
  let m := if mp < 10 then mp + 3 else mp - 9
  let y := if m ≤ 2 then y0 + 1 else y0
  pad4 y ++ "-" ++ pad2 m ++ "-" ++ pad2 d ++ "T" ++
    pad2 hh ++ ":" ++ pad2 mi ++ ":" ++ pad2 ss ++ "." ++ pad3 msPart ++ "Z"

/-- Translation of `toIso(ms)`: `""` when `Number(ms)` is falsy (here: zero), else the
ISO-8601 rendering. -/
def toIso (ms : Nat) : String :=
  if ms = 0 then "" else isoOfMs ms

/-- Embedding of `t.date_closed || t.date_done || ""` fed to `toIso`: zero and absent
are both falsy. -/
def rawDate (t : Task) : Nat :=
  let c := t.date_closed.getD 0
  if c ≠ 0 then c else t.date_done.getD 0

/-- Embedding of `a.username || a.email || a.id` inside the assignees map ( `""` and
absent are falsy; a final missing value renders as `""` in `join`). -/
def pickAssignee (a : Assignee) : String :=
  let u := a.username.getD ""
  if u ≠ "" then u
  else
    let e := a.email.getD ""
    if e ≠ "" then e else a.id.getD ""

/-- The record built for one task in the `normalize` map step. -/
def toRecord (fieldName : String) (t : Task) : Record :=
  { task_id := t.id.getD ""
    task_name := t.name.getD ""
    status := t.status.getD ""
    assignees := String.intercalate ", " ((t.assignees.getD []).map pickAssignee)
    page_url := getCustomFieldValue t fieldName
    date_closed := toIso (rawDate t)
    url := t.url.getD "" }

/-- Translation of `normalize(tasks)`: filter by `isDone`, map to records, drop records
whose `task_id` is empty (falsy).  `fieldName` is the script's
`PAGE_URL_FIELD_NAME` (default `"Page URL"`). -/
def normalize (fieldName : String) (tasks : List Task) : List Record :=
  ((tasks.filter isDone).map (toRecord fieldName)).filter (fun r => r.task_id != "")

/-! ### Header Guard (`ensureHeaderRow`) -/

/-- The expected header row. -/
def HEADERS : List String :=
  ["task_id", "task_name", "status", "assignees", "page_url", "date_closed", "url"]

/-- The `ok` test of `ensureHeaderRow`: same length as `HEADERS` and each
cell trim-equal to the expected name at its index. -/
def headerOk (existing : List String) : Bool :=
  (existing.length == HEADERS.length) &&
    (existing.zip HEADERS).all fun p => jsTrim p.1 == p.2

/-- Translation of `ensureHeaderRow(sheets)`: read row 1 (an empty sheet reads as `[]`),
do nothing when `ok`, otherwise overwrite row 1 with `HEADERS`.  The
returned flag records whether a write was performed. -/
def ensureHeaderRow (store : Store) : Store × Bool :=
  if headerOk store.header then (store, false)
  else ({ store with header := HEADERS }, true)

/-! ### Sheet Reconciler (`upsertByTaskId`) -/

/-- Column-A key of a data row (`rows[i]?.[0]`, absent cell read as
falsy). -/
def rowKey (row : List String) : String :=
  row.headD ""

/-- Whether a data row contributes the map entry looked up for `tid`:
its key must be truthy (`if (taskId)`) and equal to `tid`. -/
def matchKey (tid : String) (row : List String) : Bool :=
  rowKey row != "" && rowKey row == tid

/-- Row-number lookup for `tid` in the `idToRow` map built from the rows
starting at sheet row `i + 2`.  JS `Map.set` overwrites an existing key,
so when `tid` occurs in several rows the LAST occurrence wins; the
recursion prefers the tail's answer accordingly. -/
def idToRowFrom (tid : String) : List (List String) → Nat → Option Nat
  | [], _ => none
  | row :: rest, i =>
    match idToRowFrom tid rest (i + 1) with
    | some n => some n
    | none => if matchKey tid row then some (i + 2) else none

/-- Lookup `idToRow.get(tid)` for the map built from the data rows (sheet rows
2 onward). -/
def idToRow (rows : List (List String)) (tid : String) : Option Nat :=
  idToRowFrom tid rows 0

/-- Translation of `rowFromRecord(r)`: the seven cells in `HEADERS` order. -/
def rowFromRecord (r : Record) : List String :=
  [r.task_id, r.task_name, r.status, r.assignees, r.page_url, r.date_closed, r.url]

/-- The scheduling loop of `upsertByTaskId`: for each record in order,
push an `Update` when its `task_id` is in the map, else push the row onto
`appends`.  The map is built once from `rows` and never refreshed. -/
def schedule (rows : List (List String)) : List Record → List Update × List (List String)
  | [] => ([], [])
  | r :: rs =>
    let rest := schedule rows rs
    match idToRow rows r.task_id with
    | some n => (⟨n, rowFromRecord r⟩ :: rest.1, rest.2)
    | none => (rest.1, rowFromRecord r :: rest.2)

/-- Apply one batched range write `A{row}:G{row}` to the data rows. -/
def applyUpdate (rows : List (List String)) (u : Update) : List (List String) :=
  rows.set (u.row - 2) u.values

/-- Apply the batched `values.batchUpdate` writes in order. -/
def applyAll (rows : List (List String)) (us : List Update) : List (List String) :=
  us.foldl applyUpdate rows

/-- Translation of `upsertByTaskId(sheets, records)`: read the data rows, build the map,
schedule overwrites and appends, apply the overwrites in place and the
appends after the existing table.  Returns the new store and the logged
`(updated, appended)` counts. -/
def upsertByTaskId (store : Store) (records : List Record) : Store × Nat × Nat :=
  let sched := schedule store.rows records
  ({ store with rows := applyAll store.rows sched.1 ++ sched.2 },
    sched.1.length, sched.2.length)

/-! ### Helper lemmas about the reconciler -/

theorem rowKey_rowFromRecord (r : Record) : rowKey (rowFromRecord r) = r.task_id := rfl

theorem list_set_self {α : Type _} {l : List α} {n : Nat} {a : α} (h : l[n]? = some a) :
    l.set n a = l := by
  induction l generalizing n with
  | nil => simp at h
  | cons x xs ih =>
    cases n with
    | zero =>
      simp only [List.getElem?_cons_zero, Option.some.injEq] at h
      simp [h]
    | succ m =>
      simp only [List.getElem?_cons_succ] at h
      simp [ih h]

theorem applyAll_nil (rows : List (List String)) : applyAll rows [] = rows := rfl

theorem applyAll_cons (rows : List (List String)) (u : Update) (us : List Update) :
    applyAll rows (u :: us) = applyAll (applyUpdate rows u) us := rfl

theorem applyAll_length (us : List Update) : ∀ rows, (applyAll rows us).length = rows.length := by
  induction us with
  | nil => intro rows; rfl
  | cons u us ih =>
    intro rows
    rw [applyAll_cons, ih]
    simp [applyUpdate]

theorem applyAll_getElem?_of_ne (us : List Update) :
    ∀ (rows : List (List String)) (j : Nat), (∀ u ∈ us, u.row - 2 ≠ j) →
      (applyAll rows us)[j]? = rows[j]? := by
  induction us with
  | nil => intro rows j _; rfl
  | cons u us ih =>
    intro rows j h
    rw [applyAll_cons, ih _ _ fun v hv => h v (List.mem_cons_of_mem _ hv)]
    exact List.getElem?_set_ne (h u (List.mem_cons_self _ _))

theorem applyAll_map_rowKey (us : List Update) :
    ∀ rows, (∀ u ∈ us, (rows.map rowKey)[u.row - 2]? = some (rowKey u.values)) →
      (applyAll rows us).map rowKey = rows.map rowKey := by
  induction us with
  | nil => intro rows _; rfl
  | cons u us ih =>
    intro rows h
    have hset : (applyUpdate rows u).map rowKey = rows.map rowKey := by
      simp only [applyUpdate, List.map_set]
      exact list_set_self (h u (List.mem_cons_self _ _))
    rw [applyAll_cons,
      ih (applyUpdate rows u) fun v hv => by
        rw [hset]; exact h v (List.mem_cons_of_mem _ hv),
      hset]

theorem applyAll_id (us : List Update) :
    ∀ rows, (∀ u ∈ us, rows[u.row - 2]? = some u.values) → applyAll rows us = rows := by
  induction us with
  | nil => intro rows _; rfl
  | cons u us ih =>
    intro rows h
    have hu : applyUpdate rows u = rows := list_set_self (h u (List.mem_cons_self _ _))
    rw [applyAll_cons, hu, ih rows fun v hv => h v (List.mem_cons_of_mem _ hv)]

theorem applyAll_getElem?_mem (us : List Update) :
    ∀ (rows : List (List String)) (u : Update), u ∈ us →
      us.Pairwise (fun a b => a.row ≠ b.row) → (∀ v ∈ us, 2 ≤ v.row) →
      u.row - 2 < rows.length →
      (applyAll rows us)[u.row - 2]? = some u.values := by
  induction us with
  | nil => intro _ u h; cases h
  | cons v us ih =>
    intro rows u hmem hpair hge hb
    rcases List.mem_cons.mp hmem with rfl | hmem'
    · rw [applyAll_cons, applyAll_getElem?_of_ne us _ _ ?_]
      · simp only [applyUpdate]
        exact List.getElem?_set_self hb
      · intro w hw
        have hne := (List.pairwise_cons.mp hpair).1 w hw
        have h2u : 2 ≤ u.row := hge u (List.mem_cons_self _ _)
        have h2w : 2 ≤ w.row := hge w (List.mem_cons_of_mem _ hw)
        omega
    · rw [applyAll_cons]
      refine ih _ _ hmem' (List.pairwise_cons.mp hpair).2
        (fun w hw => hge w (List.mem_cons_of_mem _ hw)) ?_
      simpa [applyUpdate] using hb

theorem matchKey_eq_true_iff (tid : String) (row : List String) :
    matchKey tid row = true ↔ (rowKey row = tid ∧ tid ≠ "") := by
  simp only [matchKey, Bool.and_eq_true, bne_iff_ne, beq_iff_eq, ne_eq]
  constructor
  · rintro ⟨h1, h2⟩
    exact ⟨h2, fun he => h1 (h2.trans he)⟩
  · rintro ⟨h1, h2⟩
    exact ⟨fun he => h2 (h1 ▸ he), h1⟩

theorem matchKey_eq_false_of_ne (tid : String) (row : List String) (h : rowKey row ≠ tid) :
    matchKey tid row = false := by
  rcases hb : matchKey tid row with _ | _
  · rfl
  · exact absurd ((matchKey_eq_true_iff tid row).mp hb).1 h

theorem idToRowFrom_nil (tid : String) (i : Nat) : idToRowFrom tid [] i = none := rfl

theorem idToRowFrom_cons (tid : String) (row : List String) (rest : List (List String)) (i : Nat) :
    idToRowFrom tid (row :: rest) i =
      match idToRowFrom tid rest (i + 1) with
      | some n => some n
      | none => if matchKey tid row then some (i + 2) else none := rfl

theorem idToRowFrom_eq_none_iff (tid : String) :
    ∀ (rows : List (List String)) (i : Nat),
      idToRowFrom tid rows i = none ↔ ∀ row ∈ rows, matchKey tid row = false := by
  intro rows
  induction rows with
  | nil => intro i; simp [idToRowFrom_nil]
  | cons row rest ih =>
    intro i
    constructor
    · intro hc r hr
      rw [idToRowFrom_cons] at hc
      cases h : idToRowFrom tid rest (i + 1) with
      | some n => rw [h] at hc; exact absurd hc (by simp)
      | none =>
        rw [h] at hc
        rcases List.mem_cons.mp hr with rfl | hr'
        · by_contra hm
          rw [Bool.not_eq_false] at hm
          rw [if_pos hm] at hc
          exact absurd hc (by simp)
        · exact ((ih (i + 1)).mp h) r hr'
    · intro hall
      rw [idToRowFrom_cons]
      have hnone : idToRowFrom tid rest (i + 1) = none :=
        (ih (i + 1)).mpr fun r hr => hall r (List.mem_cons_of_mem _ hr)
      rw [hnone]
      have hm := hall row (List.mem_cons_self _ _)
      simp [hm]

theorem idToRowFrom_eq_some (tid : String) :
    ∀ (rows : List (List String)) (i n : Nat),
      idToRowFrom tid rows i = some n →
      ∃ j row, rows[j]? = some row ∧ n = i + j + 2 ∧ matchKey tid row = true := by
  intro rows
  induction rows with
  | nil => intro i n h; cases h
  | cons row rest ih =>
    intro i n h
    rw [idToRowFrom_cons] at h
    cases hr : idToRowFrom tid rest (i + 1) with
    | some m =>
      simp only [hr] at h
      obtain ⟨j, row', hj, hn, hm⟩ := ih (i + 1) m hr
      refine ⟨j + 1, row', by simpa using hj, ?_, hm⟩
      cases h
      omega
    | none =>
      simp only [hr] at h
      cases hm : matchKey tid row with
      | true =>
        rw [if_pos (by simp [hm])] at h
        cases h
        exact ⟨0, row, by simp, by omega, hm⟩
      | false =>
        rw [if_neg (by simp [hm])] at h
        cases h

theorem idToRowFrom_congr (tid : String) :
    ∀ (rows1 rows2 : List (List String)) (i : Nat),
      rows1.map rowKey = rows2.map rowKey →
      idToRowFrom tid rows1 i = idToRowFrom tid rows2 i := by
  intro rows1
  induction rows1 with
  | nil =>
    intro rows2 i h
    cases rows2 with
    | nil => rfl
    | cons _ _ => simp at h
  | cons r1 rest1 ih =>
    intro rows2 i h
    cases rows2 with
    | nil => simp at h
    | cons r2 rest2 =>
      simp only [List.map_cons, List.cons.injEq] at h
      obtain ⟨hk, ht⟩ := h
      rw [idToRowFrom_cons, idToRowFrom_cons, ih rest2 (i + 1) ht]
      have hmk : matchKey tid r1 = matchKey tid r2 := by simp [matchKey, hk]
      rw [hmk]

theorem idToRowFrom_append (tid : String) :
    ∀ (xs ys : List (List String)) (i : Nat),
      idToRowFrom tid (xs ++ ys) i =
        match idToRowFrom tid ys (i + xs.length) with
        | some n => some n
        | none => idToRowFrom tid xs i := by
  intro xs
  induction xs with
  | nil =>
    intro ys i
    cases h : idToRowFrom tid ys i <;>
      simp [h, idToRowFrom_nil]
  | cons x xs' ih =>
    intro ys i
    rw [List.cons_append, idToRowFrom_cons, ih ys (i + 1), idToRowFrom_cons]
    have harith : i + 1 + xs'.length = i + (x :: xs').length := by
      simp
      omega
    rw [harith]
    cases h : idToRowFrom tid ys (i + (x :: xs').length) <;>
      cases h2 : idToRowFrom tid xs' (i + 1) <;>
        simp [h, h2]

theorem idToRow_eq_some (rows : List (List String)) (tid : String) (n : Nat)
    (h : idToRow rows tid = some n) :
    ∃ row, rows[n - 2]? = some row ∧ rowKey row = tid ∧ tid ≠ "" ∧ 2 ≤ n ∧ n - 2 < rows.length := by
  obtain ⟨j, row, hj, hn, hm⟩ := idToRowFrom_eq_some tid rows 0 n h
  obtain ⟨hkey, hne⟩ := (matchKey_eq_true_iff tid row).mp hm
  have hj' : j < rows.length := by
    rcases List.getElem?_eq_some.mp hj with ⟨hlt, _⟩
    exact hlt
  have hjn : n - 2 = j := by omega
  exact ⟨row, hjn ▸ hj, hkey, hne, by omega, by omega⟩

theorem idToRow_eq_none (rows : List (List String)) (tid : String)
    (h : idToRow rows tid = none) : ∀ row ∈ rows, matchKey tid row = false :=
  (idToRowFrom_eq_none_iff tid rows 0).mp h

theorem idToRow_inj (rows : List (List String)) (a b : String) (n : Nat)
    (ha : idToRow rows a = some n) (hb : idToRow rows b = some n) : a = b := by
  obtain ⟨rowa, hja, hka, _, _, _⟩ := idToRow_eq_some rows a n ha
  obtain ⟨rowb, hjb, hkb, _, _, _⟩ := idToRow_eq_some rows b n hb
  rw [hja] at hjb
  cases hjb
  rw [← hka, ← hkb]

theorem schedule_eq (rows : List (List String)) :
    ∀ records, schedule rows records =
      (records.filterMap fun r =>
        (idToRow rows r.task_id).map fun n => Update.mk n (rowFromRecord r),
       (records.filter fun r => (idToRow rows r.task_id).isNone).map rowFromRecord) := by
  intro records
  induction records with
  | nil => rfl
  | cons r rs ih =>
    simp only [schedule, ih]
    cases h : idToRow rows r.task_id <;>
      simp [h, List.filterMap_cons, List.filter_cons]

theorem schedule_appends (rows : List (List String)) (records : List Record) :
    (schedule rows records).2 =
      (records.filter fun r => (idToRow rows r.task_id).isNone).map rowFromRecord := by
  rw [schedule_eq]

theorem mem_schedule_updates (rows : List (List String)) (records : List Record) (u : Update) :
    u ∈ (schedule rows records).1 ↔
      ∃ r ∈ records, idToRow rows r.task_id = some u.row ∧ u.values = rowFromRecord r := by
  rw [schedule_eq]
  simp only [List.mem_filterMap]
  constructor
  · rintro ⟨r, hr, hmap⟩
    cases h : idToRow rows r.task_id with
    | none => rw [h] at hmap; cases hmap
    | some n =>
      rw [h] at hmap
      simp only [Option.map_some', Option.some.injEq] at hmap
      cases hmap
      exact ⟨r, hr, h, rfl⟩
  · rintro ⟨r, hr, hsome, hval⟩
    refine ⟨r, hr, ?_⟩
    rw [hsome, ← hval]
    rfl

theorem schedule_updates_two_le (rows : List (List String)) (records : List Record)
    (u : Update) (hu : u ∈ (schedule rows records).1) : 2 ≤ u.row := by
  obtain ⟨r, _, hsome, _⟩ := (mem_schedule_updates rows records u).mp hu
  obtain ⟨_, _, _, _, h2, _⟩ := idToRow_eq_some rows r.task_id u.row hsome
  exact h2

theorem schedule_updates_lt (rows : List (List String)) (records : List Record)
    (u : Update) (hu : u ∈ (schedule rows records).1) : u.row - 2 < rows.length := by
  obtain ⟨r, _, hsome, _⟩ := (mem_schedule_updates rows records u).mp hu
  obtain ⟨_, _, _, _, _, hlt⟩ := idToRow_eq_some rows r.task_id u.row hsome
  exact hlt

theorem schedule_updates_pairwise (rows : List (List String)) (records : List Record)
    (hnd : (records.map fun r => r.task_id).Nodup) :
    (schedule rows records).1.Pairwise fun a b => a.row ≠ b.row := by
  induction records with
  | nil => simp [schedule]
  | cons r rs ih =>
    simp only [List.map_cons, List.nodup_cons] at hnd
    obtain ⟨hnotin, hnd'⟩ := hnd
    simp only [schedule]
    cases h : idToRow rows r.task_id with
    | none => exact ih hnd'
    | some n =>
      refine List.pairwise_cons.mpr ⟨?_, ih hnd'⟩
      intro u hu
      obtain ⟨r', hr', hsome, _⟩ := (mem_schedule_updates rows rs u).mp hu
      simp only []
      intro heq
      have hids : r.task_id = r'.task_id :=
        idToRow_inj rows r.task_id r'.task_id n h (heq ▸ hsome)
      exact hnotin (hids ▸ List.mem_map_of_mem _ hr')

theorem schedule_updates_key (rows : List (List String)) (records : List Record)
    (u : Update) (hu : u ∈ (schedule rows records).1) :
    (rows.map rowKey)[u.row - 2]? = some (rowKey u.values) := by
  obtain ⟨r, _, hsome, hval⟩ := (mem_schedule_updates rows records u).mp hu
  obtain ⟨row, hget, hkey, _, _, _⟩ := idToRow_eq_some rows r.task_id u.row hsome
  rw [List.getElem?_map, hget, hval, rowKey_rowFromRecord]
  simp [hkey]

theorem upsert_rows_eq (store : Store) (records : List Record) :
    ((upsertByTaskId store records).1).rows =
      applyAll store.rows (schedule store.rows records).1 ++ (schedule store.rows records).2 :=
  rfl

theorem upsert_header_eq (store : Store) (records : List Record) :
    ((upsertByTaskId store records).1).header = store.header :=
  rfl

theorem upsert_refind (store : Store) (records : List Record)
    (hne : ∀ r ∈ records, r.task_id ≠ "")
    (hnd : (records.map fun r => r.task_id).Nodup) :
    ∀ r ∈ records, ∃ n,
      idToRow ((upsertByTaskId store records).1).rows r.task_id = some n ∧
      ((upsertByTaskId store records).1).rows[n - 2]? = some (rowFromRecord r) := by
  intro r hr
  have hXkeys : (applyAll store.rows (schedule store.rows records).1).map rowKey
      = store.rows.map rowKey :=
    applyAll_map_rowKey _ _ fun u hu => schedule_updates_key store.rows records u hu
  have hXlen : (applyAll store.rows (schedule store.rows records).1).length
      = store.rows.length := applyAll_length _ _
  rw [upsert_rows_eq]
  cases h : idToRow store.rows r.task_id with
  | some n =>
    have hu : (Update.mk n (rowFromRecord r)) ∈ (schedule store.rows records).1 :=
      (mem_schedule_updates store.rows records _).mpr ⟨r, hr, h, rfl⟩
    have hb : n - 2 < store.rows.length :=
      schedule_updates_lt store.rows records _ hu
    have hget : (applyAll store.rows (schedule store.rows records).1)[n - 2]?
        = some (rowFromRecord r) :=
      applyAll_getElem?_mem _ _ _ hu
        (schedule_updates_pairwise store.rows records hnd)
        (fun v hv => schedule_updates_two_le store.rows records v hv)
        hb
    have hAnone : idToRowFrom r.task_id (schedule store.rows records).2
        (0 + (applyAll store.rows (schedule store.rows records).1).length) = none := by
      rw [idToRowFrom_eq_none_iff]
      intro row hrow
      rw [schedule_appends] at hrow
      obtain ⟨r', hr', hrfr⟩ := List.mem_map.mp hrow
      have hr'none : (idToRow store.rows r'.task_id).isNone :=
        (List.mem_filter.mp hr').2
      apply matchKey_eq_false_of_ne
      rw [← hrfr, rowKey_rowFromRecord]
      intro hids
      rw [hids, h] at hr'none
      cases hr'none
    refine ⟨n, ?_, ?_⟩
    · show idToRowFrom r.task_id _ 0 = some n
      rw [idToRowFrom_append, hAnone]
      show idToRowFrom r.task_id (applyAll store.rows (schedule store.rows records).1) 0
        = some n
      rw [idToRowFrom_congr r.task_id _ store.rows 0 hXkeys]
      exact h
    · rw [List.getElem?_append_left (by omega), hget]
  | none =>
    have hrf : r ∈ records.filter fun r => (idToRow store.rows r.task_id).isNone :=
      List.mem_filter.mpr ⟨hr, by simp [h]⟩
    obtain ⟨s, t, hst⟩ := List.append_of_mem hrf
    have hndf : ((records.filter fun r => (idToRow store.rows r.task_id).isNone).map
        fun r => r.task_id).Nodup :=
      List.Nodup.sublist (List.Sublist.map _ (List.filter_sublist records)) hnd
    have hnotint : r.task_id ∉ t.map fun r => r.task_id := by
      rw [hst] at hndf
      simp only [List.map_append, List.map_cons] at hndf
      have hsub : (r.task_id :: t.map fun r => r.task_id).Nodup :=
        List.Nodup.sublist (List.sublist_append_right _ _) hndf
      exact (List.nodup_cons.mp hsub).1
    have hA : (schedule store.rows records).2
        = s.map rowFromRecord ++ rowFromRecord r :: t.map rowFromRecord := by
      rw [schedule_appends, hst]
      simp
    have htnone : ∀ k, idToRowFrom r.task_id (t.map rowFromRecord) k = none := by
      intro k
      rw [idToRowFrom_eq_none_iff]
      intro row hrow
      obtain ⟨r', hr', hrfr⟩ := List.mem_map.mp hrow
      apply matchKey_eq_false_of_ne
      rw [← hrfr, rowKey_rowFromRecord]
      intro hids
      exact hnotint (hids ▸ List.mem_map_of_mem _ hr')
    have hinner : ∀ k,
        idToRowFrom r.task_id (rowFromRecord r :: t.map rowFromRecord) k = some (k + 2) := by
      intro k
      rw [idToRowFrom_cons, htnone (k + 1)]
      have hmk : matchKey r.task_id (rowFromRecord r) = true :=
        (matchKey_eq_true_iff _ _).mpr ⟨rowKey_rowFromRecord r, hne r hr⟩
      simp [hmk]
    have hAval : ∀ k, idToRowFrom r.task_id (schedule store.rows records).2 k
        = some (k + (s.map rowFromRecord).length + 2) := by
      intro k
      rw [hA, idToRowFrom_append, hinner (k + (s.map rowFromRecord).length)]
    refine ⟨(applyAll store.rows (schedule store.rows records).1).length
        + (s.map rowFromRecord).length + 2, ?_, ?_⟩
    · show idToRowFrom r.task_id _ 0 = _
      rw [idToRowFrom_append,
        hAval (0 + (applyAll store.rows (schedule store.rows records).1).length)]
      simp
    · rw [List.getElem?_append_right (by omega)]
      have hidx : (applyAll store.rows (schedule store.rows records).1).length
          + (s.map rowFromRecord).length + 2 - 2
          - (applyAll store.rows (schedule store.rows records).1).length
          = (s.map rowFromRecord).length := by omega
      rw [hidx, hA, List.getElem?_append_right (Nat.le_refl _), Nat.sub_self]
      simp

theorem normalize_task_id_ne (fieldName : String) (tasks : List Task) :
    ∀ r ∈ normalize fieldName tasks, r.task_id ≠ "" := by
  intro r hr
  have h := (List.mem_filter.mp hr).2
  simpa using h

theorem store_ext {a b : Store} (h1 : a.header = b.header) (h2 : a.rows = b.rows) :
    a = b := by
  cases a
  cases b
  cases h1
  cases h2
  rfl

theorem fetchTeamFuel_const_none (t : Task) :
    ∀ (fuel page : Nat) (acc : List Task),
      fetchTeamFuel (fun _ => [t]) fuel page acc = none := by
  intro fuel
  induction fuel with
  | zero => intro page acc; rfl
  | succ n ih =>
    intro page acc
    simp only [fetchTeamFuel, List.isEmpty_cons]
    exact ih (page + 1) (acc ++ [t])

theorem fetchListGo_reqs_le (src : Nat → List Task) :
    ∀ (n page : Nat) (acc : List Task) (reqs : Nat), 200 - page ≤ n →
      (fetchListGo src page acc reqs).2 ≤ reqs + 1 + (200 - page) := by
  intro n
  induction n with
  | zero =>
    intro page acc reqs h
    rw [fetchListGo]
    by_cases he : (src page).isEmpty
    · simp [he]
    · have hp : page + 1 > 200 := by omega
      simp [he, hp]
  | succ n ih =>
    intro page acc reqs h
    rw [fetchListGo]
    by_cases he : (src page).isEmpty
    · simp [he]
    · by_cases hp : page + 1 > 200
      · simp [he, hp]
      · simp only [he, hp, if_false, Bool.false_eq_true, ite_false]
        have h2 : 200 - (page + 1) ≤ n := by omega
        have hrec := ih (page + 1) (acc ++ src page) (reqs + 1) h2
        omega

/-! ### Concrete inputs used in scenario theorems, counterexamples and witnesses -/

/-- The worked scenario task of the spec's testable property 8. -/
def task42 : Task :=
  { id := some "42", name := some "Write docs", status := some "Done",
    archived := false,
    assignees := some [{ username := some "amy" }],
    custom_fields := some [{ name := some "Page URL", value := .str "https://x/42" }],
    date_closed := some 1700000000000,
    url := some "https://app/42" }

/-- Two done tasks that share the id `"1"` but differ in name. -/
def dupTaskA : Task := { id := some "1", name := some "a", status := some "done" }

/-- Second task with the duplicated id `"1"`. -/
def dupTaskB : Task := { id := some "1", name := some "b", status := some "done" }

/-- Store reached after one upsert of the duplicate-id record batch into an
empty sheet. -/
def dupStore1 : Store :=
  (upsertByTaskId { header := HEADERS, rows := [] }
    (normalize "Page URL" [dupTaskA, dupTaskB])).1

/-- Done task with id `"T1"`. -/
def wTaskA : Task := { id := some "T1", status := some "done" }

/-- Done task with id `"T2"`. -/
def wTaskB : Task := { id := some "T2", status := some "closed" }

/-- Store holding one pre-existing row for `"T1"`. -/
def wStoreC1 : Store := { header := HEADERS, rows := [["T1", "old", "", "", "", "", ""]] }

/-- Data rows containing the id `"T1"` twice (sheet rows 2 and 3). -/
def c2Rows : List (List String) := [["T1", "a"], ["T1", "b"]]

/-- Incoming record for the duplicated id `"T1"`. -/
def c2Rec : Record := { task_id := "T1", task_name := "new" }

/-- Task whose status label carries trailing whitespace. -/
def c4Task : Task := { status := some "Done " }

/-- Custom field named `"Page URL"` holding a plain string URL. -/
def c5Field : CustomField := { name := some "Page URL", value := .str "https://x/42" }

/-- Task carrying only the `"Page URL"` custom field. -/
def c5Task : Task := { custom_fields := some [c5Field] }

/-- Done task with id `"T1"` and no other data. -/
def c6Task : Task := { id := some "T1", status := some "done" }

/-! ### Claim theorems -/

/-- C1, amended: for every store state and every record set produced by the
normalizer IN WHICH NO TWO RECORDS SHARE A task_id, running upsert twice
with the same record set is idempotent: the second run finds every
record's task_id already present in the row mapping, schedules zero
appends, its scheduled overwrites write cell values identical to those
already in the store, and the store is unchanged. -/
theorem c1_upsert_idempotent (store : Store) (fieldName : String) (tasks : List Task)
    (hnd : ((normalize fieldName tasks).map fun r => r.task_id).Nodup) :
    (schedule ((upsertByTaskId store (normalize fieldName tasks)).1).rows
      (normalize fieldName tasks)).2 = [] ∧
    (∀ u ∈ (schedule ((upsertByTaskId store (normalize fieldName tasks)).1).rows
        (normalize fieldName tasks)).1,
      ((upsertByTaskId store (normalize fieldName tasks)).1).rows[u.row - 2]?
        = some u.values) ∧
    (upsertByTaskId ((upsertByTaskId store (normalize fieldName tasks)).1)
        (normalize fieldName tasks)).1
      = (upsertByTaskId store (normalize fieldName tasks)).1 := by
  have hne := normalize_task_id_ne fieldName tasks
  have hrefind := upsert_refind store (normalize fieldName tasks) hne hnd
  have happend : (schedule ((upsertByTaskId store (normalize fieldName tasks)).1).rows
      (normalize fieldName tasks)).2 = [] := by
    rw [schedule_appends, List.map_eq_nil_iff, List.filter_eq_nil_iff]
    intro r hr
    obtain ⟨n, hn, _⟩ := hrefind r hr
    simp [hn]
  have hupd : ∀ u ∈ (schedule ((upsertByTaskId store (normalize fieldName tasks)).1).rows
      (normalize fieldName tasks)).1,
      ((upsertByTaskId store (normalize fieldName tasks)).1).rows[u.row - 2]?
        = some u.values := by
    intro u hu
    obtain ⟨r, hr, hsome, hval⟩ := (mem_schedule_updates _ _ u).mp hu
    obtain ⟨n, hn, hget⟩ := hrefind r hr
    rw [hn] at hsome
    cases hsome
    rw [hval]
    exact hget
  refine ⟨happend, hupd, ?_⟩
  refine store_ext (upsert_header_eq _ _) ?_
  rw [upsert_rows_eq, happend, List.append_nil]
  exact applyAll_id _ _ hupd

/-- C1 counterexample: with the record set produced by normalizing two done
tasks that share id `"1"` (differing in name), after a first upsert into an
empty store the second run's scheduled overwrites are NOT all identical to
the cells already in the store (the claim's conjunction fails), because the
run-1 appends created two rows for id `"1"` and the map sends both records
to the same (last) row. -/
theorem c1_cex :
    ¬ ((schedule dupStore1.rows (normalize "Page URL" [dupTaskA, dupTaskB])).2 = [] ∧
      ∀ u ∈ (schedule dupStore1.rows (normalize "Page URL" [dupTaskA, dupTaskB])).1,
        dupStore1.rows[u.row - 2]? = some u.values) := by
  decide

/-- C1 witness: with distinct ids `"T1"`, `"T2"` and a store already holding
a `"T1"` row, the second run schedules zero appends. -/
theorem c1_witness :
    (schedule ((upsertByTaskId wStoreC1 (normalize "Page URL" [wTaskA, wTaskB])).1).rows
      (normalize "Page URL" [wTaskA, wTaskB])).2 = [] :=
  (c1_upsert_idempotent wStoreC1 "Page URL" [wTaskA, wTaskB] (by decide)).1

/-- C2, amended: when the existing data rows contain the same task_id in
more than one row, the map built by upsert sends that task_id to the row of
its LAST occurrence (JS `Map.set` overwrites), so an incoming record with
that task_id overwrites the last matching row and every other row —
including every EARLIER duplicate row — is left untouched. -/
theorem c2_duplicate_rows_last_wins (hdr : List String) (as bs : List (List String))
    (row : List String) (r : Record)
    (hkey : rowKey row = r.task_id) (hne : r.task_id ≠ "")
    (hlast : ∀ b ∈ bs, rowKey b ≠ r.task_id) :
    idToRow (as ++ row :: bs) r.task_id = some (as.length + 2) ∧
    ((upsertByTaskId { header := hdr, rows := as ++ row :: bs } [r]).1).rows
      = as ++ rowFromRecord r :: bs := by
  have hbs : ∀ k, idToRowFrom r.task_id bs k = none := by
    intro k
    rw [idToRowFrom_eq_none_iff]
    intro b hb
    exact matchKey_eq_false_of_ne _ _ (hlast b hb)
  have hmk : matchKey r.task_id row = true := (matchKey_eq_true_iff _ _).mpr ⟨hkey, hne⟩
  have hlookup : idToRow (as ++ row :: bs) r.task_id = some (as.length + 2) := by
    show idToRowFrom r.task_id _ 0 = _
    rw [idToRowFrom_append, idToRowFrom_cons, hbs (0 + as.length + 1)]
    simp [hmk]
  refine ⟨hlookup, ?_⟩
  rw [upsert_rows_eq]
  simp only [schedule, hlookup]
  rw [List.append_nil]
  show applyUpdate (as ++ row :: bs) ⟨as.length + 2, rowFromRecord r⟩ = _
  simp only [applyUpdate]
  have h2 : as.length + 2 - 2 = as.length := by omega
  rw [h2, List.set_append_right _ _ (Nat.le_refl _), Nat.sub_self]
  simp

/-- C2 counterexample: with rows `[["T1","a"], ["T1","b"]]` the map sends
`"T1"` to sheet row 3, not to the first occurrence row 2, and after an
upsert of one `"T1"` record the first matching row is left untouched rather
than overwritten. -/
theorem c2_cex :
    idToRow c2Rows "T1" ≠ some 2 ∧
    idToRow c2Rows "T1" = some 3 ∧
    ((upsertByTaskId { header := HEADERS, rows := c2Rows } [c2Rec]).1).rows[0]?
      = some ["T1", "a"] := by
  decide

/-- C2 witness: a concrete three-row store where the duplicated id sits in
the middle; the map resolves to that (last truthy) occurrence. -/
theorem c2_witness :
    idToRow ([["A", "x"]] ++ ["T1", "a"] :: [["B", "y"]]) "T1" = some 3 :=
  (c2_duplicate_rows_last_wins HEADERS [["A", "x"]] [["B", "y"]] ["T1", "a"]
    { task_id := "T1" } rfl (by decide) (by decide)).1

/-- C3: the team-scoped `fetchAllTasksFromTeam` has NO page cap in the
source — on a source that returns a non-empty page for every index its
loop never terminates, for any iteration bound; the list-scoped
`fetchAllTasksFromList` does carry the cap and issues at most 201
requests on every source. -/
theorem c3_paginator_bound (t : Task) (fuel : Nat) (src : Nat → List Task) :
    fetchAllTasksFromTeam (fun _ => [t]) fuel = none ∧
    (fetchAllTasksFromList src).2 ≤ 201 := by
  constructor
  · exact fetchTeamFuel_const_none t fuel 0 []
  · have h := fetchListGo_reqs_le src 200 0 [] 0 (by omega)
    simpa [fetchAllTasksFromList] using h

/-- C4, amended: `isDone` returns true iff the LOWER-CASED (but NOT
trimmed — the source applies no trim) status label equals one of the six
terminal labels, or the archived flag is true. -/
theorem c4_isDone_no_trim (t : Task) :
    isDone t = true ↔
      (jsToLower (t.status.getD "") ∈ DONE_LABELS ∨ t.archived = true) := by
  simp [isDone, List.contains_iff_exists_mem_beq]

/-- C4 counterexample: the status label `"Done "` (trailing blank) is a
terminal label after trimming and lower-casing, and the task is not
archived, yet `isDone` returns false — the code never trims. -/
theorem c4_cex :
    isDone c4Task = false ∧
    jsToLower (jsTrim (c4Task.status.getD "")) ∈ DONE_LABELS ∧
    c4Task.archived = false := by
  decide

/-- C5: `getCustomFieldValue` matches the first custom field whose
trimmed, lower-cased name equals the trimmed, lower-cased requested name;
it returns the empty string when nothing matches (in particular when there
is no field list), and coerces the matched value by the ordered chain:
null to `""`, string to itself, number to its decimal string, object with
string `url` to that url, else object with string `value` to that value,
else the object's JSON serialization or `""` when serialization fails, any
other shape to `""`; every case is total, so a malformed value never
raises. -/
theorem c5_extractField (t : Task) (fieldName : String) :
    ((∀ f ∈ t.custom_fields.getD [], fieldNameMatches fieldName f = false) →
      getCustomFieldValue t fieldName = "") ∧
    (∀ pre f post, t.custom_fields.getD [] = pre ++ f :: post →
      (∀ g ∈ pre, fieldNameMatches fieldName g = false) →
      fieldNameMatches fieldName f = true →
      getCustomFieldValue t fieldName = coerceValue f.value) ∧
    coerceValue .nullv = "" ∧
    (∀ s, coerceValue (.str s) = s) ∧
    (∀ n, coerceValue (.num n) = toString n) ∧
    (∀ u v ser, coerceValue (.obj (some u) v ser) = u) ∧
    (∀ v ser, coerceValue (.obj none (some v) ser) = v) ∧
    (∀ s, coerceValue (.obj none none (some s)) = s) ∧
    coerceValue (.obj none none none) = "" ∧
    coerceValue .otherPrim = "" := by
  refine ⟨?_, ?_, rfl, fun s => rfl, fun n => rfl, fun u v ser => rfl,
    fun v ser => rfl, fun s => rfl, rfl, rfl⟩
  · intro hall
    have hnone : (t.custom_fields.getD []).find? (fieldNameMatches fieldName) = none :=
      List.find?_eq_none.mpr fun f hf => by simp [hall f hf]
    simp only [getCustomFieldValue, hnone]
  · intro pre f post hsplit hpre hf
    have hnone : pre.find? (fieldNameMatches fieldName) = none :=
      List.find?_eq_none.mpr fun g hg => by simp [hpre g hg]
    simp only [getCustomFieldValue, hsplit, List.find?_append, hnone,
      List.find?_cons_of_pos _ hf, Option.none_or]

/-- C5 witness: the `"Page URL"` field is found under the differently
cased, differently padded name `" PAGE url "` and its string value passes
through. -/
theorem c5_witness : getCustomFieldValue c5Task " PAGE url " = "https://x/42" :=
  (c5_extractField c5Task " PAGE url ").2.1 [] c5Field [] rfl
    (fun g hg => absurd hg (List.not_mem_nil g)) (by decide)

/-- C6: every record produced by `normalize` has a non-empty `task_id`
(records whose id would be empty are dropped); all seven fields of the
record type are strings by construction, defaulting to `""`. -/
theorem c6_normalize_invariant (fieldName : String) (tasks : List Task) :
    ∀ r ∈ normalize fieldName tasks, r.task_id ≠ "" :=
  normalize_task_id_ne fieldName tasks

/-- C6 witness: the record normalized from a concrete done task has a
non-empty task_id. -/
theorem c6_witness : ({ task_id := "T1", status := "done" } : Record).task_id ≠ "" :=
  c6_normalize_invariant "Page URL" [c6Task] { task_id := "T1", status := "done" }
    (by decide)

/-- C7: the spec's worked scenario — the single task with id 42 normalizes
to exactly the expected record, including the epoch-milliseconds to
ISO-8601 conversion of `date_closed`. -/
theorem c7_scenario :
    normalize "Page URL" [task42]
      = [{ task_id := "42", task_name := "Write docs", status := "Done",
           assignees := "amy", page_url := "https://x/42",
           date_closed := "2023-11-14T22:13:20.000Z", url := "https://app/42" }] := by
  decide

/-- C8: running the header guard against a store whose first row is empty
writes exactly the seven expected column names into row 1 in order;
running it again immediately afterward finds row 1 equal to the expected
columns and performs no write. -/
theorem c8_header_guard (rows : List (List String)) :
    ensureHeaderRow { header := [], rows := rows }
      = ({ header := HEADERS, rows := rows }, true) ∧
    ensureHeaderRow { header := HEADERS, rows := rows }
      = ({ header := HEADERS, rows := rows }, false) := by
  have h1 : headerOk [] = false := by decide
  have h2 : headerOk HEADERS = true := by decide
  constructor
  · simp [ensureHeaderRow, h1]
  · simp [ensureHeaderRow, h2]

/-- C9: upsert never deletes a row (the row count never shrinks), and
every existing data row whose column-A key differs from the task_id of
every incoming record is left completely unchanged: overwrites only target
mapped rows and appends go after the existing table. -/
theorem c9_frame (store : Store) (records : List Record) :
    store.rows.length ≤ ((upsertByTaskId store records).1).rows.length ∧
    ∀ (i : Nat) (row : List String), store.rows[i]? = some row →
      (∀ r ∈ records, rowKey row ≠ r.task_id) →
      ((upsertByTaskId store records).1).rows[i]? = some row := by
  constructor
  · rw [upsert_rows_eq, List.length_append, applyAll_length]
    omega
  · intro i row hget hall
    have hib : i < store.rows.length := by
      rcases List.getElem?_eq_some.mp hget with ⟨hlt, _⟩
      exact hlt
    have hne : ∀ u ∈ (schedule store.rows records).1, u.row - 2 ≠ i := by
      intro u hu hiu
      obtain ⟨r, hr, hsome, _⟩ := (mem_schedule_updates store.rows records u).mp hu
      obtain ⟨row', hget', hkey', _, _, _⟩ := idToRow_eq_some store.rows r.task_id u.row hsome
      rw [hiu, hget] at hget'
      cases hget'
      exact hall r hr hkey'
    rw [upsert_rows_eq,
      List.getElem?_append_left (by rw [applyAll_length]; exact hib),
      applyAll_getElem?_of_ne _ _ _ hne, hget]

/-- C9 witness: a row keyed `"X"` survives an upsert of a `"T1"` record
unchanged. -/
theorem c9_witness :
    ((upsertByTaskId { header := HEADERS, rows := [["X", "keep"]] }
        [{ task_id := "T1" }]).1).rows[0]? = some ["X", "keep"] :=
  (c9_frame { header := HEADERS, rows := [["X", "keep"]] } [{ task_id := "T1" }]).2 0
    ["X", "keep"] (by decide) (by decide)

/-- C10: the reconciler does not deduplicate the incoming batch — the map
is built once from the read and never updated while scheduling, so two
incoming records sharing a task_id absent from the existing data are BOTH
scheduled as appends, leaving two rows with that task_id after one run. -/
theorem c10_no_dedup (store : Store) (pre mid post : List Record) (r1 r2 : Record)
    (hid : r2.task_id = r1.task_id)
    (habs : idToRow store.rows r1.task_id = none) :
    2 ≤ ((schedule store.rows (pre ++ r1 :: mid ++ r2 :: post)).2.countP
      fun row => rowKey row == r1.task_id) ∧
    2 ≤ (((upsertByTaskId store (pre ++ r1 :: mid ++ r2 :: post)).1).rows.countP
      fun row => rowKey row == r1.task_id) := by
  have hmain : 2 ≤ ((schedule store.rows (pre ++ r1 :: mid ++ r2 :: post)).2.countP
      fun row => rowKey row == r1.task_id) := by
    rw [schedule_appends, List.countP_map, List.countP_filter]
    simp only [List.countP_append, List.countP_cons]
    have hP1 : (((fun row => rowKey row == r1.task_id) ∘ rowFromRecord) r1 &&
        (idToRow store.rows r1.task_id).isNone) = true := by
      simp [Function.comp, rowKey_rowFromRecord, habs]
    have hP2 : (((fun row => rowKey row == r1.task_id) ∘ rowFromRecord) r2 &&
        (idToRow store.rows r2.task_id).isNone) = true := by
      simp [Function.comp, rowKey_rowFromRecord, hid, habs]
    rw [hP1, hP2]
    simp
    omega
  refine ⟨hmain, ?_⟩
  rw [upsert_rows_eq, List.countP_append]
  omega

/-- C10 witness: two records with the fresh id `"T"` both land in the
appends of a run against an empty store. -/
theorem c10_witness :
    2 ≤ ((schedule (Store.mk HEADERS []).rows
        ([] ++ { task_id := "T", task_name := "a" } :: []
          ++ { task_id := "T", task_name := "b" } :: [])).2.countP
      fun row => rowKey row == ({ task_id := "T", task_name := "a" } : Record).task_id) :=
  (c10_no_dedup (Store.mk HEADERS []) [] [] []
    { task_id := "T", task_name := "a" } { task_id := "T", task_name := "b" }
    rfl (by decide)).1

end ClickupSync
